import Mathlib

/-!
Verification development for the MetaForge data pipeline
(`scripts/fetch-metaforge-data.mjs`): the paginated collection fetcher
(`fetchAll`), the per-map location fetcher (`fetchMapData`), and the weapon
normalizer (`processWeapons` with its helpers `normalizeSubcategory` and
`calculateModifiedStat`).

Modelling conventions, mirroring the JavaScript source:
* JSON numbers are modelled as `ℚ`; record fields that may be absent are
  `Option`-valued.
* `x || y` on numbers is `jsOr` (`0` and `undefined`/absent are both falsy,
  so `(o : Option ℚ).getD 0` collapses a raw field exactly as every read in
  the source does).  `x || y` on strings is `jsOrStr` (empty string falsy).
* `Array.prototype.sort` is stable (ES2019); it is modelled by a stable
  insertion sort on the comparator key.
* The `fetch` loop is driven by an explicit list of upstream responses
  (one entry per HTTP request made); running out of responses models a run
  that has not terminated yet (`none`).
-/

/-! ## JS string and number helpers -/

/-- JS whitespace, as far as the names in this data set use it. -/
def isWs (c : Char) : Bool := c = ' ' || c = '\t' || c = '\n' || c = '\r'

/-- `String.prototype.trim` on a character list. -/
def trimChars (l : List Char) : List Char :=
  ((l.dropWhile isWs).reverse.dropWhile isWs).reverse

/-- `s.trim()` -/
def jsTrim (s : String) : String := String.mk (trimChars s.toList)

/-- Uppercase a character list (for case-insensitive roman-numeral tests). -/
def upChars (l : List Char) : List Char := l.map Char.toUpper

/-- `s.toLowerCase()` -/
def strToLower (s : String) : String := String.mk (s.toList.map Char.toLower)

/-- Does `hay` start with `pat`? -/
def startsWithChars : List Char → List Char → Bool
  | [], _ => true
  | _ :: _, [] => false
  | p :: ps, h :: hs => p == h && startsWithChars ps hs

/-- Does `hay` contain `pat` as a contiguous run? (`String.prototype.includes`) -/
def containsChars (pat : List Char) : List Char → Bool
  | [] => startsWithChars pat []
  | c :: hs => startsWithChars pat (c :: hs) || containsChars pat hs

/-- `hay.includes(pat)` -/
def strContains (hay pat : String) : Bool := containsChars pat.toList hay.toList

/-- JS `a || b` for numbers already collapsed to `ℚ` (0 is falsy). -/
def jsOr (a b : ℚ) : ℚ := if a = 0 then b else a

/-- JS `a || b` for strings ("" is falsy). -/
def jsOrStr (a b : String) : String := if a = "" then b else a

/-- JS `a || b` for optional strings, where absent and "" are both falsy. -/
def jsOrOptStr (a b : Option String) : Option String :=
  if a.getD "" = "" then b else a

/-- JS `a || null` for an optional string. -/
def jsOrNullStr (a : Option String) : Option String :=
  if a.getD "" = "" then none else a

/-! ## Roman-numeral suffix parsing

The grouping regex is `/\s+(I|II|III|IV|V)$/i` (requires whitespace before
the numeral); the sort/level regex is `/(I|II|III|IV|V)$/i` (no whitespace
required).  For a leftmost match ending at `$`, the matched numeral is the
longest roman suffix of the string. -/

/-- The five roman numerals, uppercased. -/
def romanLists : List (List Char) :=
  [['I'], ['I','I'], ['I','I','I'], ['I','V'], ['V']]

/-- Is this entire character list one of I, II, III, IV, V (case-insensitive)? -/
def isRomanCI (l : List Char) : Bool := romanLists.contains (upChars l)

/-- `name.match(/(I|II|III|IV|V)$/i)?.[0]`: the longest roman suffix of
`name`, in its original case. -/
def romanSuffix (name : String) : Option String :=
  let r := name.toList.reverse
  if upChars (r.take 3) = ['I','I','I'] then some (String.mk (r.take 3).reverse)
  else if upChars (r.take 2) = ['I','I'] || upChars (r.take 2) = ['V','I'] then
    some (String.mk (r.take 2).reverse)
  else if upChars (r.take 1) = ['I'] || upChars (r.take 1) = ['V'] then
    some (String.mk (r.take 1).reverse)
  else none

/-- `variant.name.match(/(I|II|III|IV|V)$/i)?.[0] || 'I'` -/
def levelStrOf (name : String) : String := (romanSuffix name).getD "I"

/-- `const romanToNumber = { I: 1, II: 2, III: 3, IV: 4, V: 5 }` — a
case-sensitive lookup table (keys are uppercase only). -/
def romanToNumber : List (String × ℕ) :=
  [("I", 1), ("II", 2), ("III", 3), ("IV", 4), ("V", 5)]

/-- `romanToNumber[levelString] || 1` -/
def rankOfLevel (s : String) : ℕ := (List.lookup s romanToNumber).getD 1

/-- The comparator key of the variant sort:
`romanToNumber[name.match(/(I|II|III|IV|V)$/i)?.[0] || 'I'] || 1`. -/
def sortKeyOf (name : String) : ℕ := rankOfLevel (levelStrOf name)

/-- `weapon.name.replace(/\s+(I|II|III|IV|V)$/i, '').trim()`: if the part of
the name after its last whitespace character is a roman numeral, drop it
together with the whitespace run before it, then trim. -/
def baseNameOf (name : String) : String :=
  let l := name.toList
  let r := l.reverse
  let t := r.takeWhile (fun c => !(isWs c))
  let rest := r.dropWhile (fun c => !(isWs c))
  if !rest.isEmpty && isRomanCI t.reverse then
    String.mk (trimChars (rest.dropWhile isWs).reverse)
  else
    String.mk (trimChars l)

/-- `baseWeapon.id.replace` of a trailing `-i` (case-sensitive, lowercase `i`). -/
def stripDashI (s : String) : String :=
  let r := s.toList.reverse
  if r.take 2 = ['i', '-'] then String.mk ((r.drop 2).reverse) else s

/-! ## Data model -/

/-- `stat_block` of a raw upstream record; every field may be absent. -/
structure StatBlock where
  damage : Option ℚ
  fireRate : Option ℚ
  range : Option ℚ
  stability : Option ℚ
  agility : Option ℚ
  stealth : Option ℚ
  magazineSize : Option ℚ
  weight : Option ℚ
  damagePerSecond : Option ℚ
  firingMode : Option String
  ammo : Option String
  increasedFireRate : Option ℚ
  reducedReloadTime : Option ℚ
  increasedBulletVelocity : Option ℚ
  reducedDurabilityBurnRate : Option ℚ
  reducedMaxShotDispersion : Option ℚ
  reducedPerShotDispersion : Option ℚ
  reducedDispersionRecoveryTime : Option ℚ
  reducedRecoilRecoveryTime : Option ℚ
  increasedRecoilRecoveryTime : Option ℚ
deriving DecidableEq

/-- One raw upstream item record (the fields the pipeline reads). -/
structure RawWeapon where
  id : String
  name : String
  description : Option String
  flavor_text : Option String
  icon : Option String
  rarity : Option String
  subcategory : Option String
  ammo_type : Option String
  item_type : Option String
  value : Option ℚ
  workbench : Option String
  stat_block : Option StatBlock
deriving DecidableEq

/-- `variant.stat_block?.f || 0` — a stat read collapsed to a number
(absent stat block, absent field and 0 are indistinguishable to the source,
which only ever reads these fields behind `|| 0` or a truthiness test). -/
def statOf (w : RawWeapon) (f : StatBlock → Option ℚ) : ℚ :=
  (w.stat_block.bind f).getD 0

/-- The nine modifier keys tracked by the normalizer. -/
inductive ModKey where
  | increasedFireRate
  | reducedReloadTime
  | increasedBulletVelocity
  | reducedDurabilityBurnRate
  | reducedMaxShotDispersion
  | reducedPerShotDispersion
  | reducedDispersionRecoveryTime
  | reducedRecoilRecoveryTime
  | increasedRecoilRecoveryTime
deriving DecidableEq

/-- Field selector for a modifier key. -/
def modField : ModKey → StatBlock → Option ℚ
  | .increasedFireRate => fun sb => sb.increasedFireRate
  | .reducedReloadTime => fun sb => sb.reducedReloadTime
  | .increasedBulletVelocity => fun sb => sb.increasedBulletVelocity
  | .reducedDurabilityBurnRate => fun sb => sb.reducedDurabilityBurnRate
  | .reducedMaxShotDispersion => fun sb => sb.reducedMaxShotDispersion
  | .reducedPerShotDispersion => fun sb => sb.reducedPerShotDispersion
  | .reducedDispersionRecoveryTime => fun sb => sb.reducedDispersionRecoveryTime
  | .reducedRecoilRecoveryTime => fun sb => sb.reducedRecoilRecoveryTime
  | .increasedRecoilRecoveryTime => fun sb => sb.increasedRecoilRecoveryTime

/-- `stats.key || 0` for a modifier key (the `modifiers` object literal). -/
def modOf (w : RawWeapon) (k : ModKey) : ℚ := (w.stat_block.bind (modField k)).getD 0

/-- The group's `baseStats` record. -/
structure BaseStats where
  damage : ℚ
  fireRate : ℚ
  range : ℚ
  stability : ℚ
  agility : ℚ
  stealth : ℚ
  magazineSize : ℚ
  weight : ℚ
  firingMode : Option String
  damagePerSecond : ℚ
deriving DecidableEq

/-- A level entry's resolved `stats` record. -/
structure LevelStats where
  damage : ℚ
  fireRate : ℚ
  range : ℚ
  stability : ℚ
  agility : ℚ
  stealth : ℚ
  magazineSize : ℚ
  weight : ℚ
  damagePerSecond : ℚ
deriving DecidableEq

/-- `hasDirectOverrides` of a level entry. -/
structure DirectOverrides where
  fireRate : Bool
deriving DecidableEq

/-- One entry of `weaponGroup.levels`.  The cumulative `modifiers` object is
a partial map on the nine keys (a key is present in the JS object only when
the loop assigned it); `activeModifiers` is total with `|| 0` defaults. -/
structure LevelEntry where
  level : String
  levelNumber : ℕ
  id : String
  value : Option ℚ
  workbench : Option String
  icon : Option String
  stats : LevelStats
  modifiers : ModKey → Option ℚ
  activeModifiers : ModKey → ℚ
  hasDirectOverrides : DirectOverrides

/-- One processed weapon group. -/
structure WeaponGroup where
  id : String
  baseName : String
  description : String
  icon : Option String
  rarity : Option String
  subcategory : String
  ammoType : String
  baseStats : BaseStats
  levels : List LevelEntry

/-! ## normalizeSubcategory -/

/-- `normalizeSubcategory(weapon)` translated clause by clause. -/
def normalizeSubcategory (w : RawWeapon) : String :=
  let s0 := w.subcategory.getD ""
  let s1 :=
    if s0 ≠ "" then
      let t := jsTrim s0
      if t = "Hand Cannon" then "Pistol"
      else if t = "Battle Rifle" then "Rifle"
      else t
    else s0
  if w.name ≠ "" then
    if strContains w.name "Ferro" || strContains w.name "Renegade" then "Rifle"
    else if strContains w.name "Torrente" then "LMG"
    else if strContains w.name "Osprey" then "Sniper Rifle"
    else if strContains w.name "Stitcher" then "SMG"
    else if strContains w.name "Il Toro" then "Shotgun"
    else s1
  else s1

/-- Spec-side rename rules ("Hand Cannon" → "Pistol", "Battle Rifle" → "Rifle"). -/
def applyRenames (s : String) : String :=
  if s = "Hand Cannon" then "Pistol" else if s = "Battle Rifle" then "Rifle" else s

/-- Spec-side name-substring table, first match in the fixed order wins. -/
def nameRule (n : String) : Option String :=
  if strContains n "Ferro" || strContains n "Renegade" then some "Rifle"
  else if strContains n "Torrente" then some "LMG"
  else if strContains n "Osprey" then some "Sniper Rifle"
  else if strContains n "Stitcher" then some "SMG"
  else if strContains n "Il Toro" then some "Shotgun"
  else none

/-- The subcategory resolution as the specification words it: trim the
declared subcategory, apply the renames, then let a name-substring match
override the result. -/
def claimSubcategory (w : RawWeapon) : String :=
  match nameRule w.name with
  | some s => s
  | none => applyRenames (jsTrim (w.subcategory.getD ""))

/-! ## calculateModifiedStat and the weapon normalizer -/

/-- `calculateModifiedStat(baseStat, modifier, isReduction)`; `!x` on a
number is `x = 0` after the `Option` collapse. -/
def calculateModifiedStat (baseStat modifier : ℚ) (isReduction : Bool) : ℚ :=
  if baseStat = 0 ∨ modifier = 0 then baseStat
  else if isReduction then baseStat * (1 - modifier / 100)
  else baseStat * (1 + modifier / 100)

/-- `weaponGroup.baseStats` built from the lowest-rank record. -/
def baseStatsOf (b : RawWeapon) : BaseStats where
  damage := statOf b (fun sb => sb.damage)
  fireRate := statOf b (fun sb => sb.fireRate)
  range := statOf b (fun sb => sb.range)
  stability := statOf b (fun sb => sb.stability)
  agility := statOf b (fun sb => sb.agility)
  stealth := statOf b (fun sb => sb.stealth)
  magazineSize := statOf b (fun sb => sb.magazineSize)
  weight := statOf b (fun sb => sb.weight)
  firingMode := jsOrNullStr (b.stat_block.bind (fun sb => sb.firingMode))
  damagePerSecond := statOf b (fun sb => sb.damagePerSecond)

/-- One step of the cumulative-modifier loop, on the collapsed value `x` of
`variants[i].stat_block[key]`:
`if (levelStats[key] && levelStats[key] > (cumulativeModifiers[key] || 0))
   cumulativeModifiers[key] = levelStats[key]`. -/
def cumStep (cur : Option ℚ) (x : ℚ) : Option ℚ :=
  if x ≠ 0 ∧ cur.getD 0 < x then some x else cur

/-- `cumulativeModifiers[key]` of the level at index `li`: the loop runs over
`variants[0..li]`. -/
def cumulativeOf (variants : List RawWeapon) (li : ℕ) (k : ModKey) : Option ℚ :=
  ((variants.take (li + 1)).map (fun u => modOf u k)).foldl cumStep none

/-- One level entry, built from the variant `v` at 0-based index `li` of the
sorted `variants` list of its group. -/
def mkLevel (base : BaseStats) (gIcon : Option String) (variants : List RawWeapon)
    (li : ℕ) (v : RawWeapon) : LevelEntry :=
  let m := modOf v ModKey.increasedFireRate
  let f := statOf v (fun sb => sb.fireRate)
  let hasOv : Bool := decide (0 < li ∧ f ≠ 0 ∧ f ≠ base.fireRate ∧ m = 0)
  let calcFR := if hasOv then f else calculateModifiedStat base.fireRate m false
  let calcDPS := calculateModifiedStat base.damagePerSecond m false
  { level := levelStrOf v.name
    levelNumber := li + 1
    id := v.id
    value := v.value
    workbench := v.workbench
    icon := jsOrOptStr v.icon gIcon
    stats :=
      { damage := jsOr (statOf v (fun sb => sb.damage)) base.damage
        fireRate := jsOr calcFR base.fireRate
        range := jsOr (statOf v (fun sb => sb.range)) base.range
        stability := jsOr (statOf v (fun sb => sb.stability)) base.stability
        agility := jsOr (statOf v (fun sb => sb.agility)) base.agility
        stealth := jsOr (statOf v (fun sb => sb.stealth)) base.stealth
        magazineSize := jsOr (statOf v (fun sb => sb.magazineSize)) base.magazineSize
        weight := jsOr (statOf v (fun sb => sb.weight)) base.weight
        damagePerSecond := jsOr calcDPS base.damagePerSecond }
    modifiers := fun k => cumulativeOf variants li k
    activeModifiers := fun k => modOf v k
    hasDirectOverrides := { fireRate := hasOv } }

/-- Stable insertion into a list sorted by `sortKeyOf`: an element goes in
front of the first strictly-later element and after equal keys, which is
exactly the order the (stable) JS comparator sort produces. -/
def insertByKey (x : RawWeapon) : List RawWeapon → List RawWeapon
  | [] => [x]
  | y :: ys =>
    if sortKeyOf x.name ≤ sortKeyOf y.name then x :: y :: ys
    else y :: insertByKey x ys

/-- `variants.sort((a, b) => rank(a) - rank(b))` as a stable sort. -/
def sortByLevel : List RawWeapon → List RawWeapon
  | [] => []
  | x :: xs => insertByKey x (sortByLevel xs)

/-- Placeholder group for the unreachable empty-variants case. -/
def junkGroup (bn : String) : WeaponGroup where
  id := ""
  baseName := bn
  description := ""
  icon := none
  rarity := none
  subcategory := ""
  ammoType := ""
  baseStats :=
    { damage := 0, fireRate := 0, range := 0, stability := 0, agility := 0,
      stealth := 0, magazineSize := 0, weight := 0, firingMode := none,
      damagePerSecond := 0 }
  levels := []

/-- Placeholder level entry (used only as a `getD` default in statements). -/
def junkLevel : LevelEntry where
  level := ""
  levelNumber := 0
  id := ""
  value := none
  workbench := none
  icon := none
  stats :=
    { damage := 0, fireRate := 0, range := 0, stability := 0, agility := 0,
      stealth := 0, magazineSize := 0, weight := 0, damagePerSecond := 0 }
  modifiers := fun _ => none
  activeModifiers := fun _ => 0
  hasDirectOverrides := { fireRate := false }

/-- The body of the per-group `Object.entries` loop, given the sorted
variants list whose head is `baseWeapon`. -/
def buildGroup (bn : String) (b : RawWeapon) (variants : List RawWeapon) : WeaponGroup :=
  let base := baseStatsOf b
  { id := stripDashI b.id
    baseName := bn
    description := jsOrStr (b.description.getD "") (b.flavor_text.getD "")
    icon := b.icon
    rarity := b.rarity
    subcategory := normalizeSubcategory b
    ammoType := strToLower (jsOrStr (b.ammo_type.getD "")
      ((b.stat_block.bind (fun sb => sb.ammo)).getD ""))
    baseStats := base
    levels := variants.enum.map (fun q => mkLevel base b.icon variants q.1 q.2) }

/-- Process one weapon group: sort its variants by level rank, then build
the group record from the lowest-rank variant. -/
def mkWeaponGroup (bn : String) (vs : List RawWeapon) : WeaponGroup :=
  match sortByLevel vs with
  | [] => junkGroup bn
  | b :: rest => buildGroup bn b (b :: rest)

/-- Append `w` to the entry of the key `k`, or create the entry at the end
(`weaponGroups[baseName].push(weapon)` on a plain object). -/
def addToGroups (gs : List (String × List RawWeapon)) (k : String) (w : RawWeapon) :
    List (String × List RawWeapon) :=
  match gs with
  | [] => [(k, [w])]
  | (k', l) :: rest =>
    if k' = k then (k', l ++ [w]) :: rest else (k', l) :: addToGroups rest k w

/-- The grouping pass of `processWeapons`. -/
def groupByBaseName (ws : List RawWeapon) : List (String × List RawWeapon) :=
  ws.foldl (fun gs w => addToGroups gs (baseNameOf w.name) w) []

/-- `processWeapons(weapons)`. -/
def processWeapons (ws : List RawWeapon) : List WeaponGroup :=
  (groupByBaseName ws).map (fun p => mkWeaponGroup p.1 p.2)

/-! ## The paginated fetcher `fetchAll` -/

/-- A record as the fetcher sees it (identity tag plus the one field the
fetcher inspects). -/
structure FetchRec where
  tag : ℕ
  item_type : Option String
deriving DecidableEq

/-- One upstream response to a page request: a parsed 2xx page, an HTTP 429,
or anything the `try` block throws on (network failure, non-2xx status,
malformed body). -/
inductive PageResp where
  | ok (records : List FetchRec)
  | rate
  | err
deriving DecidableEq

/-- The per-page accumulation: for the `items` endpoint, records with
`item_type === 'Misc'` are filtered out before concatenation. -/
def pageContrib (isItems : Bool) (arr : List FetchRec) : List FetchRec :=
  if isItems then arr.filter (fun it => !(it.item_type == some "Misc")) else arr

/-- The `while (true)` loop of `fetchAll`, driven by the list of upstream
responses (one per request issued).  State: current page, accumulator `all`,
the log of pages requested so far and of sleeps performed so far (ms).
`none` means the responses ran out before the loop terminated. -/
def runFetch (isItems : Bool) :
    List PageResp → ℕ → List FetchRec → List ℕ → List ℕ →
    Option (List FetchRec × List ℕ × List ℕ)
  | [], _, _, _, _ => none
  | r :: rest, page, acc, log, sleeps =>
    match r with
    | .rate => runFetch isItems rest page acc (log ++ [page]) (sleeps ++ [10000])
    | .err =>
      if acc.isEmpty then runFetch isItems rest page acc (log ++ [page]) (sleeps ++ [5000])
      else some (acc, log ++ [page], sleeps)
    | .ok arr =>
      if arr.length = 0 then some (acc, log ++ [page], sleeps)
      else
        let acc2 := acc ++ pageContrib isItems arr
        if arr.length < 50 then some (acc2, log ++ [page], sleeps)
        else runFetch isItems rest (page + 1) acc2 (log ++ [page]) (sleeps ++ [1500])

/-- The pages whose records a terminating run accumulates, in order.
`ne` records whether the accumulator is already nonempty. -/
def pagesTaken (isItems : Bool) : Bool → List PageResp → List (List FetchRec)
  | _, [] => []
  | ne, .rate :: rest => pagesTaken isItems ne rest
  | ne, .err :: rest => if ne then [] else pagesTaken isItems ne rest
  | ne, .ok arr :: rest =>
    if arr.length = 0 then []
    else if arr.length < 50 then [arr]
    else arr :: pagesTaken isItems (ne || !(pageContrib isItems arr).isEmpty) rest

/-! ## The per-map fetcher `fetchMapData` -/

/-- One upstream response to a map-data request: parsed OK data, HTTP 429,
a non-ok non-429 status, or a thrown error (network failure / bad JSON). -/
inductive MapResp where
  | okData (d : List FetchRec)
  | rate
  | bad
  | thrown
deriving DecidableEq

/-- The entry `fetchMapData` records for one map, given the response to its
request and (consulted only after a 429) the response to the single retry.
`none` means `allMaps[mapName]` is never assigned. -/
def fetchMapEntry (r1 r2 : MapResp) : Option (List FetchRec) :=
  match r1 with
  | .okData d => some d
  | .bad => some []
  | .thrown => some []
  | .rate =>
    match r2 with
    | .okData d => some d
    | .thrown => some []
    | .rate => none
    | .bad => none

/-! ## Concrete records used by the examples and counterexamples -/

/-- A stat block that only sets `fireRate` and `increasedFireRate`. -/
def sbOfFR (fr inc : Option ℚ) : StatBlock where
  damage := none
  fireRate := fr
  range := none
  stability := none
  agility := none
  stealth := none
  magazineSize := none
  weight := none
  damagePerSecond := none
  firingMode := none
  ammo := none
  increasedFireRate := inc
  reducedReloadTime := none
  increasedBulletVelocity := none
  reducedDurabilityBurnRate := none
  reducedMaxShotDispersion := none
  reducedPerShotDispersion := none
  reducedDispersionRecoveryTime := none
  reducedRecoilRecoveryTime := none
  increasedRecoilRecoveryTime := none

/-- A weapon record with the given name and stat block. -/
def mkRaw (nm : String) (sb : Option StatBlock) : RawWeapon where
  id := nm
  name := nm
  description := none
  flavor_text := none
  icon := none
  rarity := none
  subcategory := none
  ammo_type := none
  item_type := some "Weapon"
  value := none
  workbench := none
  stat_block := sb

def arpI : RawWeapon := mkRaw "Arpeggio I" (some (sbOfFR (some 100) none))
def arpIImod : RawWeapon := mkRaw "Arpeggio II" (some (sbOfFR none (some 20)))
def arpIIovr : RawWeapon := mkRaw "Arpeggio II" (some (sbOfFR (some 150) none))
def arpIIneg : RawWeapon := mkRaw "Arpeggio II" (some (sbOfFR none (some (-100))))

def viperI : RawWeapon := mkRaw "Viper I" none
def viperII : RawWeapon := mkRaw "Viper II" none
def viperIII : RawWeapon := mkRaw "Viper III" none

/-! ## Lemmas about the paginated fetcher -/

/-- Unfolding: a 429 response makes the loop sleep 10 s and re-request the
same page, accumulating nothing. -/
theorem runFetch_rate (isItems : Bool) (rs : List PageResp) (p : ℕ)
    (a : List FetchRec) (log sl : List ℕ) :
    runFetch isItems (PageResp.rate :: rs) p a log sl
      = runFetch isItems rs p a (log ++ [p]) (sl ++ [10000]) := rfl

/-- The accumulated result of a run does not depend on the log accumulators. -/
theorem runFetch_map_fst_log (isItems : Bool) (rs : List PageResp) :
    ∀ (p : ℕ) (a : List FetchRec) (l1 s1 l2 s2 : List ℕ),
      (runFetch isItems rs p a l1 s1).map (fun r => r.1)
        = (runFetch isItems rs p a l2 s2).map (fun r => r.1) := by
  induction rs with
  | nil => intro p a l1 s1 l2 s2; rfl
  | cons r rest ih =>
    intro p a l1 s1 l2 s2
    cases r with
    | rate => simpa [runFetch] using ih p a (l1 ++ [p]) (s1 ++ [10000]) (l2 ++ [p]) (s2 ++ [10000])
    | err =>
      by_cases h : a.isEmpty
      · simpa [runFetch, h] using ih p a (l1 ++ [p]) (s1 ++ [5000]) (l2 ++ [p]) (s2 ++ [5000])
      · simp [runFetch, h]
    | ok arr =>
      by_cases h0 : arr.length = 0
      · simp [runFetch, h0]
      · by_cases h50 : arr.length < 50
        · simp [runFetch, h0, h50]
        · simpa [runFetch, h0, h50] using
            ih (p + 1) (a ++ pageContrib isItems arr) (l1 ++ [p]) (s1 ++ [1500])
              (l2 ++ [p]) (s2 ++ [1500])

/-- `isEmpty` distributes over append as a boolean conjunction. -/
theorem isEmpty_append_eq {α : Type} (l1 l2 : List α) :
    (l1 ++ l2).isEmpty = (l1.isEmpty && l2.isEmpty) := by
  cases l1 <;> simp

/-- A terminating run's accumulated result is its starting accumulator
followed by the (per-page filtered) contributions of the accepted pages,
in page order with per-page order preserved. -/
theorem runFetch_concat (isItems : Bool) (rs : List PageResp) :
    ∀ (p : ℕ) (a : List FetchRec) (log sl : List ℕ) res lg2 sl2,
      runFetch isItems rs p a log sl = some (res, lg2, sl2) →
      res = a ++ ((pagesTaken isItems (!a.isEmpty) rs).map (pageContrib isItems)).flatten := by
  induction rs with
  | nil => intro p a log sl res lg2 sl2 h; simp [runFetch] at h
  | cons r rest ih =>
    intro p a log sl res lg2 sl2 h
    cases r with
    | rate =>
      rw [runFetch_rate] at h
      simpa [pagesTaken] using ih p a (log ++ [p]) (sl ++ [10000]) res lg2 sl2 h
    | err =>
      by_cases he : a.isEmpty
      · rw [show runFetch isItems (PageResp.err :: rest) p a log sl
            = runFetch isItems rest p a (log ++ [p]) (sl ++ [5000]) by simp [runFetch, he]] at h
        simpa [pagesTaken, he] using ih p a (log ++ [p]) (sl ++ [5000]) res lg2 sl2 h
      · have hb : a.isEmpty = false := by simpa using he
        rw [show runFetch isItems (PageResp.err :: rest) p a log sl
            = some (a, log ++ [p], sl) by simp [runFetch, hb]] at h
        simp only [Option.some.injEq, Prod.mk.injEq] at h
        obtain ⟨h3, -, -⟩ := h
        subst h3
        simp [pagesTaken, hb]
    | ok arr =>
      by_cases h0 : arr.length = 0
      · rw [show runFetch isItems (PageResp.ok arr :: rest) p a log sl
            = some (a, log ++ [p], sl) by simp [runFetch, h0]] at h
        simp only [Option.some.injEq, Prod.mk.injEq] at h
        obtain ⟨h3, -, -⟩ := h
        subst h3
        simp [pagesTaken, h0]
      · by_cases h50 : arr.length < 50
        · rw [show runFetch isItems (PageResp.ok arr :: rest) p a log sl
              = some (a ++ pageContrib isItems arr, log ++ [p], sl) by
                simp [runFetch, h0, h50]] at h
          simp only [Option.some.injEq, Prod.mk.injEq] at h
          obtain ⟨h3, -, -⟩ := h
          subst h3
          simp [pagesTaken, h0, h50]
        · rw [show runFetch isItems (PageResp.ok arr :: rest) p a log sl
              = runFetch isItems rest (p + 1) (a ++ pageContrib isItems arr)
                  (log ++ [p]) (sl ++ [1500]) by simp [runFetch, h0, h50]] at h
          have := ih (p + 1) (a ++ pageContrib isItems arr) (log ++ [p]) (sl ++ [1500])
            res lg2 sl2 h
          have hne : (!(a ++ pageContrib isItems arr).isEmpty)
              = (!a.isEmpty || !(pageContrib isItems arr).isEmpty) := by
            rw [isEmpty_append_eq, Bool.not_and]
          rw [hne] at this
          simp [pagesTaken, h0, h50, this]

/-- A run over error-free pages that are all full (≥ 50 records) never
terminates on its own: it consumes every response and keeps paginating. -/
theorem runFetch_all_full (arrs : List (List FetchRec)) :
    ∀ (p : ℕ) (a : List FetchRec) (log sl : List ℕ),
      (∀ x ∈ arrs, 50 ≤ x.length) →
      runFetch false (arrs.map PageResp.ok) p a log sl = none := by
  induction arrs with
  | nil => intro p a log sl _; rfl
  | cons x arrs' ih =>
    intro p a log sl hall
    have hx : 50 ≤ x.length := hall x (by simp)
    have h0 : ¬x.length = 0 := by omega
    have h50 : ¬x.length < 50 := by omega
    rw [List.map_cons,
      show runFetch false (PageResp.ok x :: arrs'.map PageResp.ok) p a log sl
        = runFetch false (arrs'.map PageResp.ok) (p + 1) (a ++ pageContrib false x)
            (log ++ [p]) (sl ++ [1500]) by simp [runFetch, h0, h50]]
    exact ih (p + 1) _ _ _ (fun y hy => hall y (by simp [hy]))

/-- A run over error-free pages — full pages followed by one short page —
terminates exactly at the short page: it issues one request per page up to
and including the short one, accumulates every record, and sleeps the
politeness delay after each full page. -/
theorem runFetch_pages (arrs : List (List FetchRec)) :
    ∀ (lastPage : List FetchRec) (rest : List PageResp) (p : ℕ)
      (a : List FetchRec) (log sl : List ℕ),
      (∀ x ∈ arrs, 50 ≤ x.length) → lastPage.length < 50 →
      runFetch false (arrs.map PageResp.ok ++ PageResp.ok lastPage :: rest) p a log sl
        = some (a ++ arrs.flatten ++ lastPage,
            log ++ (List.range (arrs.length + 1)).map (fun i => p + i),
            sl ++ List.replicate arrs.length 1500) := by
  induction arrs with
  | nil =>
    intro lastPage rest p a log sl _ hlast
    rw [List.map_nil, List.nil_append]
    by_cases h0 : lastPage.length = 0
    · have : lastPage = [] := List.length_eq_zero.mp h0
      subst this
      simp [runFetch, show List.range 1 = [0] from rfl]
    · have e : runFetch false (PageResp.ok lastPage :: rest) p a log sl
          = some (a ++ pageContrib false lastPage, log ++ [p], sl) := by
        simp [runFetch, h0, hlast]
      rw [e]
      simp [pageContrib, show List.range 1 = [0] from rfl]
  | cons x arrs' ih =>
    intro lastPage rest p a log sl hall hlast
    have hx : 50 ≤ x.length := hall x (by simp)
    have h0 : ¬x.length = 0 := by omega
    have h50 : ¬x.length < 50 := by omega
    rw [List.map_cons, List.cons_append,
      show runFetch false (PageResp.ok x :: (arrs'.map PageResp.ok ++ PageResp.ok lastPage :: rest)) p a log sl
        = runFetch false (arrs'.map PageResp.ok ++ PageResp.ok lastPage :: rest) (p + 1)
            (a ++ pageContrib false x) (log ++ [p]) (sl ++ [1500]) by
          simp [runFetch, h0, h50],
      ih lastPage rest (p + 1) (a ++ pageContrib false x) (log ++ [p]) (sl ++ [1500])
        (fun y hy => hall y (by simp [hy])) hlast]
    have hlog : (log ++ [p]) ++ (List.range (arrs'.length + 1)).map (fun i => p + 1 + i)
        = log ++ (List.range (arrs'.length + 1 + 1)).map (fun i => p + i) := by
      have hr : (List.range (arrs'.length + 1 + 1)).map (fun i => p + i)
          = p :: (List.range (arrs'.length + 1)).map (fun i => p + 1 + i) := by
        rw [List.range_succ_eq_map, List.map_cons, List.map_map]
        refine congrArg₂ List.cons (by omega) ?_
        apply List.map_congr_left
        intro i _
        simp only [Function.comp]
        omega
      rw [hr, List.append_assoc, List.singleton_append]
    have hsl : (sl ++ [1500]) ++ List.replicate arrs'.length 1500
        = sl ++ List.replicate (arrs'.length + 1) 1500 := by
      rw [List.append_assoc, List.replicate_succ]
      rfl
    rw [hlog, hsl]
    simp [pageContrib, List.append_assoc]

/-- Inserting a 429 response anywhere into the response stream does not
change the accumulated result of the run (the rate-limited request is
retried and contributes nothing). -/
theorem runFetch_rate_inserted (isItems : Bool) (pre : List PageResp) :
    ∀ (suf : List PageResp) (p : ℕ) (a : List FetchRec) (log sl log' sl' : List ℕ),
      (runFetch isItems (pre ++ PageResp.rate :: suf) p a log sl).map (fun r => r.1)
        = (runFetch isItems (pre ++ suf) p a log' sl').map (fun r => r.1) := by
  induction pre with
  | nil =>
    intro suf p a log sl log' sl'
    rw [List.nil_append, List.nil_append, runFetch_rate]
    exact runFetch_map_fst_log isItems suf p a (log ++ [p]) (sl ++ [10000]) log' sl'
  | cons r pre' ih =>
    intro suf p a log sl log' sl'
    cases r with
    | rate =>
      rw [List.cons_append, List.cons_append, runFetch_rate, runFetch_rate]
      exact ih suf p a _ _ _ _
    | err =>
      by_cases he : a.isEmpty
      · rw [List.cons_append, List.cons_append,
          show runFetch isItems (PageResp.err :: (pre' ++ PageResp.rate :: suf)) p a log sl
            = runFetch isItems (pre' ++ PageResp.rate :: suf) p a (log ++ [p]) (sl ++ [5000]) by
              simp [runFetch, he],
          show runFetch isItems (PageResp.err :: (pre' ++ suf)) p a log' sl'
            = runFetch isItems (pre' ++ suf) p a (log' ++ [p]) (sl' ++ [5000]) by
              simp [runFetch, he]]
        exact ih suf p a _ _ _ _
      · have hb : a.isEmpty = false := by simpa using he
        rw [List.cons_append, List.cons_append,
          show runFetch isItems (PageResp.err :: (pre' ++ PageResp.rate :: suf)) p a log sl
            = some (a, log ++ [p], sl) by simp [runFetch, hb],
          show runFetch isItems (PageResp.err :: (pre' ++ suf)) p a log' sl'
            = some (a, log' ++ [p], sl') by simp [runFetch, hb]]
        rfl
    | ok arr =>
      by_cases h0 : arr.length = 0
      · rw [List.cons_append, List.cons_append,
          show runFetch isItems (PageResp.ok arr :: (pre' ++ PageResp.rate :: suf)) p a log sl
            = some (a, log ++ [p], sl) by simp [runFetch, h0],
          show runFetch isItems (PageResp.ok arr :: (pre' ++ suf)) p a log' sl'
            = some (a, log' ++ [p], sl') by simp [runFetch, h0]]
        rfl
      · by_cases h50 : arr.length < 50
        · rw [List.cons_append, List.cons_append,
            show runFetch isItems (PageResp.ok arr :: (pre' ++ PageResp.rate :: suf)) p a log sl
              = some (a ++ pageContrib isItems arr, log ++ [p], sl) by simp [runFetch, h0, h50],
            show runFetch isItems (PageResp.ok arr :: (pre' ++ suf)) p a log' sl'
              = some (a ++ pageContrib isItems arr, log' ++ [p], sl') by simp [runFetch, h0, h50]]
          rfl
        · rw [List.cons_append, List.cons_append,
            show runFetch isItems (PageResp.ok arr :: (pre' ++ PageResp.rate :: suf)) p a log sl
              = runFetch isItems (pre' ++ PageResp.rate :: suf) (p + 1)
                  (a ++ pageContrib isItems arr) (log ++ [p]) (sl ++ [1500]) by
                simp [runFetch, h0, h50],
            show runFetch isItems (PageResp.ok arr :: (pre' ++ suf)) p a log' sl'
              = runFetch isItems (pre' ++ suf) (p + 1)
                  (a ++ pageContrib isItems arr) (log' ++ [p]) (sl' ++ [1500]) by
                simp [runFetch, h0, h50]]
          exact ih suf (p + 1) _ _ _ _ _

/-! ## Concrete pages for the pagination example -/

def mfPage1 : List FetchRec := (List.range 50).map (fun i => { tag := i, item_type := some "Arc" })
def mfPage2 : List FetchRec := (List.range 50).map (fun i => { tag := 50 + i, item_type := some "Arc" })
def mfPage3 : List FetchRec := (List.range 37).map (fun i => { tag := 100 + i, item_type := some "Arc" })

/-! ## Claim theorems: the fetcher -/

/-- C2 counterexample: the fetcher itself does drop records.  For the
`items` collection, a successfully fetched page containing a record with
`item_type = "Misc"` yields a run result that does not contain that record
(the claim asserts the returned sequence contains every record of every
successfully fetched page and that the only filtering is the weapon-category
filter applied later). -/
theorem spec_c2_counterexample :
    runFetch true [PageResp.ok [{ tag := 0, item_type := some "Misc" }]] 1 [] [] []
      = some ([], [1], [])
    ∧ ({ tag := 0, item_type := some "Misc" } : FetchRec) ∉ ([] : List FetchRec) :=
  ⟨rfl, by simp⟩

/-- C2 (amended): a terminating run of the fetcher returns exactly the
concatenation, in page order with per-page order preserved, of the records
of the accepted pages — except that for the `items` collection each page is
first stripped of records with `item_type = "Misc"`.  For every other
collection the per-page contribution is the page itself (no record is
dropped). -/
theorem spec_c2_theorem :
    (∀ (isItems : Bool) (rs : List PageResp) (p : ℕ) (a : List FetchRec)
        (log sl : List ℕ) res lg2 sl2,
        runFetch isItems rs p a log sl = some (res, lg2, sl2) →
        res = a ++ ((pagesTaken isItems (!a.isEmpty) rs).map (pageContrib isItems)).flatten)
    ∧ (∀ arr, pageContrib false arr = arr)
    ∧ (∀ arr, pageContrib true arr = arr.filter (fun it => !(it.item_type == some "Misc"))) :=
  ⟨fun isItems rs => runFetch_concat isItems rs, fun _ => rfl, fun _ => rfl⟩

/-- C2 witness: a concrete terminating run whose result is the predicted
concatenation. -/
theorem spec_c2_witness :
    runFetch false [PageResp.ok [{ tag := 5, item_type := none }]] 1 [] [] []
      = some ([{ tag := 5, item_type := none }], [1], [])
    ∧ [({ tag := 5, item_type := none } : FetchRec)]
      = [] ++ ((pagesTaken false (!List.isEmpty ([] : List FetchRec))
          [PageResp.ok [{ tag := 5, item_type := none }]]).map (pageContrib false)).flatten :=
  ⟨rfl, spec_c2_theorem.1 false [PageResp.ok [{ tag := 5, item_type := none }]] 1 [] [] []
    [{ tag := 5, item_type := none }] [1] [] rfl⟩

/-- C6: the fetcher stops paginating exactly when a page returns zero
records or fewer than 50 records: for an error-free upstream whose pages are
full up to a first short (or empty) page, the run requests exactly one page
per upstream page up to and including the short one and accumulates every
record; if every page is full the loop never terminates on its own; in
particular pages of sizes [50, 50, 37] yield 137 records in 3 requests. -/
theorem spec_c6_theorem :
    (∀ (arrs : List (List FetchRec)) (lastPage : List FetchRec) (rest : List PageResp)
        (p : ℕ) (a : List FetchRec) (log sl : List ℕ),
        (∀ x ∈ arrs, 50 ≤ x.length) → lastPage.length < 50 →
        runFetch false (arrs.map PageResp.ok ++ PageResp.ok lastPage :: rest) p a log sl
          = some (a ++ arrs.flatten ++ lastPage,
              log ++ (List.range (arrs.length + 1)).map (fun i => p + i),
              sl ++ List.replicate arrs.length 1500))
    ∧ (∀ (arrs : List (List FetchRec)) (p : ℕ) (a : List FetchRec) (log sl : List ℕ),
        (∀ x ∈ arrs, 50 ≤ x.length) →
        runFetch false (arrs.map PageResp.ok) p a log sl = none)
    ∧ ((runFetch false [PageResp.ok mfPage1, PageResp.ok mfPage2, PageResp.ok mfPage3]
          1 [] [] []).map (fun r => (r.1.length, r.2.1)) = some (137, [1, 2, 3])) :=
  ⟨fun arrs => runFetch_pages arrs, fun arrs => runFetch_all_full arrs, rfl⟩

/-- C6 witness: the general termination statement applied to a one-page
upstream. -/
theorem spec_c6_witness :
    (∀ x ∈ ([] : List (List FetchRec)), 50 ≤ x.length)
    ∧ ([({ tag := 9, item_type := none } : FetchRec)].length < 50)
    ∧ runFetch false ([].map PageResp.ok ++ PageResp.ok [{ tag := 9, item_type := none }] :: []) 1 [] [] []
      = some ([] ++ List.flatten [] ++ [{ tag := 9, item_type := none }],
          [] ++ (List.range (List.length ([] : List (List FetchRec)) + 1)).map (fun i => 1 + i),
          [] ++ List.replicate (List.length ([] : List (List FetchRec))) 1500) :=
  ⟨by simp, by simp,
    spec_c6_theorem.1 [] [{ tag := 9, item_type := none }] [] 1 [] [] []
      (by simp) (by simp)⟩

/-- C7: on a non-429 fetch error, if records have already been accumulated
the loop stops immediately and the partial result is accepted (no extra
sleep); if nothing has been accumulated yet the loop sleeps 5 s and retries
the same page.  In both cases the error is absorbed — the run continues or
returns a normal result, it never propagates. -/
theorem spec_c7_theorem :
    ∀ (isItems : Bool) (rs : List PageResp) (p : ℕ) (a : List FetchRec) (log sl : List ℕ),
      (a ≠ [] → runFetch isItems (PageResp.err :: rs) p a log sl = some (a, log ++ [p], sl))
      ∧ (a = [] → runFetch isItems (PageResp.err :: rs) p a log sl
          = runFetch isItems rs p a (log ++ [p]) (sl ++ [5000])) := by
  intro isItems rs p a log sl
  constructor
  · intro h
    have hb : a.isEmpty = false := by
      cases a with
      | nil => exact absurd rfl h
      | cons x xs => rfl
    simp [runFetch, hb]
  · intro h
    subst h
    simp [runFetch]

/-- C7 witness: both error-handling branches at concrete inputs. -/
theorem spec_c7_witness :
    (([({ tag := 0, item_type := none } : FetchRec)] ≠ [])
      ∧ runFetch false [PageResp.err] 1 [{ tag := 0, item_type := none }] [] []
        = some ([{ tag := 0, item_type := none }], [] ++ [1], []))
    ∧ ((([] : List FetchRec) = [])
      ∧ runFetch false [PageResp.err] 1 [] [] []
        = runFetch false [] 1 [] ([] ++ [1]) ([] ++ [5000])) :=
  ⟨⟨by simp, (spec_c7_theorem false [] 1 [{ tag := 0, item_type := none }] [] []).1 (by simp)⟩,
   ⟨rfl, (spec_c7_theorem false [] 1 [] [] []).2 rfl⟩⟩

/-- C8 counterexample: the claim extends the "retry indefinitely until no
longer rate-limited" policy to the per-map fetcher, but `fetchMapData`
retries exactly once: after a 429 whose single retry is again a 429 it
abandons the map — no entry is recorded and no further request is made —
even though (as the second conjunct shows) a success on the retry would have
produced the data. -/
theorem spec_c8_counterexample :
    fetchMapEntry MapResp.rate MapResp.rate = none
    ∧ fetchMapEntry MapResp.rate (MapResp.okData [{ tag := 0, item_type := none }])
      = some [{ tag := 0, item_type := none }]
    ∧ (none ≠ some ([{ tag := 0, item_type := none }] : List FetchRec)) :=
  ⟨rfl, rfl, by simp⟩

/-- C8 (amended): the paginated fetcher handles a 429 by sleeping 10 s and
re-requesting the same page, accumulating nothing, and it does so
indefinitely — inserting a 429 anywhere into the response stream leaves the
accumulated result unchanged.  The per-map fetcher is idempotent in the same
sense for a single 429 (429 then success equals immediate success), but it
retries only once: a second consecutive 429 abandons the map's entry. -/
theorem spec_c8_theorem :
    (∀ (isItems : Bool) (rs : List PageResp) (p : ℕ) (a : List FetchRec) (log sl : List ℕ),
        runFetch isItems (PageResp.rate :: rs) p a log sl
          = runFetch isItems rs p a (log ++ [p]) (sl ++ [10000]))
    ∧ (∀ (isItems : Bool) (pre suf : List PageResp) (p : ℕ) (a : List FetchRec)
        (log sl log' sl' : List ℕ),
        (runFetch isItems (pre ++ PageResp.rate :: suf) p a log sl).map (fun r => r.1)
          = (runFetch isItems (pre ++ suf) p a log' sl').map (fun r => r.1))
    ∧ (∀ d r2, fetchMapEntry (MapResp.okData d) r2 = some d)
    ∧ (∀ d, fetchMapEntry MapResp.rate (MapResp.okData d) = some d)
    ∧ fetchMapEntry MapResp.rate MapResp.rate = none :=
  ⟨fun isItems rs p a log sl => runFetch_rate isItems rs p a log sl,
   fun isItems pre suf p a log sl log' sl' => runFetch_rate_inserted isItems pre suf p a log sl log' sl',
   fun _ _ => rfl, fun _ => rfl, rfl⟩

/-! ## Lemmas about the weapon normalizer -/

/-- `a || a` is `a` for JS numbers. -/
theorem jsOr_self (a : ℚ) : jsOr a a = a := by
  unfold jsOr
  split <;> rfl

/-- A zero modifier leaves the stat unchanged. -/
theorem calculateModifiedStat_zero (b : ℚ) (r : Bool) : calculateModifiedStat b 0 r = b := by
  simp [calculateModifiedStat]

/-- The resolved else-branch fire rate (`calculatedFireRate || baseFireRate`)
is the modifier formula when that formula is nonzero, and the base fire rate
when it is zero. -/
theorem fireRate_formula (base m : ℚ) :
    jsOr (calculateModifiedStat base m false) base
      = if base * (1 + m / 100) ≠ 0 then base * (1 + m / 100) else base := by
  by_cases hb : base = 0
  · simp [hb, calculateModifiedStat, jsOr]
  · by_cases hm : m = 0
    · simp [hb, hm, calculateModifiedStat, jsOr]
    · have hcalc : calculateModifiedStat base m false = base * (1 + m / 100) := by
        simp [calculateModifiedStat, hb, hm]
      rw [hcalc]
      unfold jsOr
      by_cases h : base * (1 + m / 100) = 0 <;> simp [h]

/-- A group built from a nonempty sorted variants list: its base stats come
from the head. -/
theorem mkWeaponGroup_baseStats (bn : String) (vs : List RawWeapon) (b : RawWeapon)
    (rest : List RawWeapon) (h : sortByLevel vs = b :: rest) :
    (mkWeaponGroup bn vs).baseStats = baseStatsOf b := by
  unfold mkWeaponGroup
  rw [h]
  rfl

/-- Indexing the levels of a group: position `k` holds `mkLevel` of the
`k`-th sorted variant. -/
theorem mkWeaponGroup_levels_get (bn : String) (vs : List RawWeapon) (b : RawWeapon)
    (rest : List RawWeapon) (h : sortByLevel vs = b :: rest) (k : ℕ) :
    (mkWeaponGroup bn vs).levels[k]?
      = ((b :: rest)[k]?).map (fun v => mkLevel (baseStatsOf b) b.icon (b :: rest) k v) := by
  unfold mkWeaponGroup
  rw [h]
  show ((b :: rest).enum.map
      (fun q => mkLevel (baseStatsOf b) b.icon (b :: rest) q.1 q.2))[k]? = _
  rw [List.getElem?_map, List.getElem?_enum]
  cases (b :: rest)[k]? <;> rfl

/-- Invariant of the cumulative fold: any assigned value is positive. -/
def cumInv (c : Option ℚ) : Prop := ∀ v, c = some v → 0 < v

/-- The invariant gives a non-negative collapsed value. -/
theorem cumInv_getD_nonneg {c : Option ℚ} (hc : cumInv c) : 0 ≤ c.getD 0 := by
  cases c with
  | none => simp
  | some v => exact le_of_lt (hc v rfl)

/-- A cumulative step preserves the positivity invariant. -/
theorem cumStep_inv (c : Option ℚ) (x : ℚ) (hc : cumInv c) : cumInv (cumStep c x) := by
  unfold cumStep
  split
  · rename_i hcond
    intro v hv
    cases hv
    have := cumInv_getD_nonneg hc
    linarith [hcond.2]
  · exact hc

/-- A cumulative step never decreases the collapsed value. -/
theorem cumStep_getD_le (c : Option ℚ) (x : ℚ) : c.getD 0 ≤ (cumStep c x).getD 0 := by
  unfold cumStep
  split
  · rename_i hcond
    exact le_of_lt hcond.2
  · exact le_refl _

/-- The fold preserves the positivity invariant. -/
theorem cumFold_inv (xs : List ℚ) : ∀ c, cumInv c → cumInv (xs.foldl cumStep c) := by
  induction xs with
  | nil => intro c hc; exact hc
  | cons x xs ih => intro c hc; exact ih (cumStep c x) (cumStep_inv c x hc)

/-- If every observed value is non-positive, the fold assigns nothing. -/
theorem cumFold_none (xs : List ℚ) (h : ∀ x ∈ xs, x ≤ 0) :
    xs.foldl cumStep none = none := by
  induction xs with
  | nil => rfl
  | cons x xs ih =>
    have hx : x ≤ 0 := h x (by simp)
    have : cumStep none x = none := by
      unfold cumStep
      rw [if_neg]
      intro hcond
      simp at hcond
      linarith [hcond.2]
    rw [List.foldl_cons, this]
    exact ih (fun y hy => h y (by simp [hy]))

/-- On non-negative inputs the cumulative fold computes a running maximum. -/
theorem cumFold_max (xs : List ℚ) :
    ∀ c, cumInv c → (∀ x ∈ xs, 0 ≤ x) →
      (xs.foldl cumStep c).getD 0 = xs.foldl max (c.getD 0) := by
  induction xs with
  | nil => intro c _ _; rfl
  | cons x xs ih =>
    intro c hc hx
    rw [List.foldl_cons, List.foldl_cons,
      ih (cumStep c x) (cumStep_inv c x hc) (fun y hy => hx y (by simp [hy]))]
    congr 1
    have hx0 : 0 ≤ x := hx x (by simp)
    have hc0 : 0 ≤ c.getD 0 := cumInv_getD_nonneg hc
    unfold cumStep
    split
    · rename_i hcond
      simp [max_eq_right (le_of_lt hcond.2)]
    · rename_i hcond
      push_neg at hcond
      by_cases hxz : x = 0
      · simp [hxz, max_eq_left hc0]
      · exact (max_eq_left (hcond hxz)).symm

/-- The cumulative value of a modifier never decreases from one level to the
next. -/
theorem cumulativeOf_mono (variants : List RawWeapon) (li : ℕ) (k : ModKey) :
    (cumulativeOf variants li k).getD 0 ≤ (cumulativeOf variants (li + 1) k).getD 0 := by
  have h2 : List.take (li + 1 + 1) variants
      = List.take (li + 1) variants ++ (variants[li + 1]?).toList :=
    @List.take_succ _ variants (li + 1)
  unfold cumulativeOf
  rw [h2, List.map_append, List.foldl_append]
  cases h : variants[li + 1]? with
  | none => simp [h]
  | some v =>
    simp only [h, Option.toList_some, List.map_cons, List.map_nil, List.foldl_cons,
      List.foldl_nil]
    exact cumStep_getD_le _ _

/-- Every group produced by `processWeapons` is `mkWeaponGroup` of one of
the grouped variant lists. -/
theorem processWeapons_mem (ws : List RawWeapon) (g : WeaponGroup) :
    g ∈ processWeapons ws → ∃ p ∈ groupByBaseName ws, g = mkWeaponGroup p.1 p.2 := by
  intro h
  obtain ⟨p, hp, hg⟩ := List.mem_map.mp h
  exact ⟨p, hp, hg.symm⟩

/-- Extracting the underlying sorted variant of a level entry. -/
theorem mkWeaponGroup_entry (bn : String) (vs : List RawWeapon) (b : RawWeapon)
    (rest : List RawWeapon) (k : ℕ) (e : LevelEntry)
    (hsort : sortByLevel vs = b :: rest)
    (he : (mkWeaponGroup bn vs).levels[k]? = some e) :
    ∃ v, (b :: rest)[k]? = some v
      ∧ e = mkLevel (baseStatsOf b) b.icon (b :: rest) k v := by
  rw [mkWeaponGroup_levels_get bn vs b rest hsort k] at he
  cases hv : (b :: rest)[k]? with
  | none => rw [hv] at he; simp at he
  | some v =>
    rw [hv] at he
    simp only [Option.map_some'] at he
    exact ⟨v, rfl, (Option.some.inj he).symm⟩

/-- C4 (amended): reading absent stat-block modifiers as 0, for every weapon
group and modifier key whose observed values are all non-negative, the
cumulative `modifiers` value at rank `k` (0 when the key is absent) is the
maximum of the values observed in the stat blocks at rank `k` or any lower
rank — a maximum, not a sum; and — unconditionally — the cumulative value
never decreases from one level to the next. -/
theorem spec_c4_theorem :
    ∀ (bn : String) (vs : List RawWeapon) (b : RawWeapon) (rest : List RawWeapon)
      (key : ModKey),
      sortByLevel vs = b :: rest →
      (((∀ u ∈ b :: rest, 0 ≤ modOf u key) →
          ∀ (k : ℕ) (e : LevelEntry), (mkWeaponGroup bn vs).levels[k]? = some e →
            (e.modifiers key).getD 0
              = (((b :: rest).take (k + 1)).map (fun u => modOf u key)).foldl max 0)
        ∧ (∀ (k : ℕ) (e e' : LevelEntry),
            (mkWeaponGroup bn vs).levels[k]? = some e →
            (mkWeaponGroup bn vs).levels[k + 1]? = some e' →
            (e.modifiers key).getD 0 ≤ (e'.modifiers key).getD 0)) := by
  intro bn vs b rest key hsort
  constructor
  · intro hpos k e he
    obtain ⟨v, hv, rfl⟩ := mkWeaponGroup_entry bn vs b rest k e hsort he
    show (cumulativeOf (b :: rest) k key).getD 0 = _
    unfold cumulativeOf
    have hnn : ∀ x ∈ ((b :: rest).take (k + 1)).map (fun u => modOf u key), 0 ≤ x := by
      intro x hx
      obtain ⟨u, hu, rfl⟩ := List.mem_map.mp hx
      exact hpos u (List.take_subset _ _ hu)
    rw [cumFold_max _ none (fun q hq => by simp at hq) hnn]
    rfl
  · intro k e e' he he'
    obtain ⟨v, hv, rfl⟩ := mkWeaponGroup_entry bn vs b rest k e hsort he
    obtain ⟨v', hv', rfl⟩ := mkWeaponGroup_entry bn vs b rest (k + 1) e' hsort he'
    exact cumulativeOf_mono (b :: rest) k key

/-- C4 witness: the Arpeggio pair at rank II, key `increasedFireRate`. -/
theorem spec_c4_witness :
    sortByLevel [arpI, arpIImod] = [arpI, arpIImod]
    ∧ (∀ u ∈ [arpI, arpIImod], 0 ≤ modOf u ModKey.increasedFireRate)
    ∧ (mkWeaponGroup "Arpeggio" [arpI, arpIImod]).levels[1]?
        = some (mkLevel (baseStatsOf arpI) arpI.icon [arpI, arpIImod] 1 arpIImod)
    ∧ (((mkLevel (baseStatsOf arpI) arpI.icon [arpI, arpIImod] 1 arpIImod).modifiers
          ModKey.increasedFireRate).getD 0
        = (([arpI, arpIImod].take 2).map (fun u => modOf u ModKey.increasedFireRate)).foldl max 0) :=
  ⟨rfl, by decide, rfl,
   ( spec_c4_theorem "Arpeggio" [arpI, arpIImod] arpI [arpIImod]
      ModKey.increasedFireRate rfl).1 (by decide) 1 _ rfl⟩

def negRec : RawWeapon := mkRaw "Neg I" (some (sbOfFR none (some (-5))))

/-- C4 counterexample: with a negative observed modifier (−5 at rank I) the
claim predicts a cumulative value of −5 (the maximum of the observed
values), but the pipeline assigns nothing for that key (its collapsed value
is 0): the cumulative map is a maximum of the positive observations only. -/
theorem spec_c4_counterexample :
    modOf negRec ModKey.increasedFireRate = -5
    ∧ (((processWeapons [negRec]).headD (junkGroup "")).levels.getD 0 junkLevel).modifiers
        ModKey.increasedFireRate = none
    ∧ ((none : Option ℚ) ≠ some (-5)) := by
  refine ⟨by decide, rfl, by simp⟩

/-- C10: in every level entry, every key present in the cumulative
`modifiers` map has a strictly positive value; a key whose observed values
at this and every lower rank are all absent (0), zero, or negative does not
appear at all; and `activeModifiers` is total — for each of the nine keys it
holds exactly this level's own stat-block value collapsed with a 0 default. -/
theorem spec_c10_theorem :
    ∀ (bn : String) (vs : List RawWeapon) (b : RawWeapon) (rest : List RawWeapon)
      (k : ℕ) (e : LevelEntry) (key : ModKey),
      sortByLevel vs = b :: rest →
      (mkWeaponGroup bn vs).levels[k]? = some e →
      ((∀ q, e.modifiers key = some q → 0 < q)
        ∧ ((∀ u ∈ (b :: rest).take (k + 1), modOf u key ≤ 0) → e.modifiers key = none)
        ∧ (∀ v, (b :: rest)[k]? = some v → e.activeModifiers key = modOf v key)) := by
  intro bn vs b rest k e key hsort he
  obtain ⟨v, hv, rfl⟩ := mkWeaponGroup_entry bn vs b rest k e hsort he
  refine ⟨?_, ?_, ?_⟩
  · show cumInv (cumulativeOf (b :: rest) k key)
    unfold cumulativeOf
    exact cumFold_inv _ none (fun q hq => by simp at hq)
  · intro hnp
    show cumulativeOf (b :: rest) k key = none
    unfold cumulativeOf
    apply cumFold_none
    intro x hx
    obtain ⟨u, hu, rfl⟩ := List.mem_map.mp hx
    exact hnp u hu
  · intro v' hv'
    rw [hv] at hv'
    rw [Option.some.inj hv']
    rfl

/-- C10 witness: the single-record Viper group, key `increasedFireRate`. -/
theorem spec_c10_witness :
    sortByLevel [viperI] = [viperI]
    ∧ (mkWeaponGroup "Viper" [viperI]).levels[0]?
        = some (mkLevel (baseStatsOf viperI) viperI.icon [viperI] 0 viperI)
    ∧ ((∀ q, (mkLevel (baseStatsOf viperI) viperI.icon [viperI] 0 viperI).modifiers
          ModKey.increasedFireRate = some q → 0 < q)
        ∧ ((∀ u ∈ [viperI].take 1, modOf u ModKey.increasedFireRate ≤ 0) →
            (mkLevel (baseStatsOf viperI) viperI.icon [viperI] 0 viperI).modifiers
              ModKey.increasedFireRate = none)
        ∧ (∀ v, ([viperI] : List RawWeapon)[0]? = some v →
            (mkLevel (baseStatsOf viperI) viperI.icon [viperI] 0 viperI).activeModifiers
              ModKey.increasedFireRate = modOf v ModKey.increasedFireRate)) :=
  ⟨rfl, rfl,
   spec_c10_theorem "Viper" [viperI] viperI [] 0
     (mkLevel (baseStatsOf viperI) viperI.icon [viperI] 0 viperI)
     ModKey.increasedFireRate rfl rfl⟩

/-- The override flag of a level entry, unfolded. -/
theorem mkLevel_flag (base : BaseStats) (gIcon : Option String) (variants : List RawWeapon)
    (li : ℕ) (v : RawWeapon) :
    (mkLevel base gIcon variants li v).hasDirectOverrides.fireRate
      = decide (0 < li ∧ statOf v (fun sb => sb.fireRate) ≠ 0
          ∧ statOf v (fun sb => sb.fireRate) ≠ base.fireRate
          ∧ modOf v ModKey.increasedFireRate = 0) := rfl

/-- The resolved fire rate of a level entry, unfolded. -/
theorem mkLevel_fireRate (base : BaseStats) (gIcon : Option String) (variants : List RawWeapon)
    (li : ℕ) (v : RawWeapon) :
    (mkLevel base gIcon variants li v).stats.fireRate
      = jsOr
          (if decide (0 < li ∧ statOf v (fun sb => sb.fireRate) ≠ 0
              ∧ statOf v (fun sb => sb.fireRate) ≠ base.fireRate
              ∧ modOf v ModKey.increasedFireRate = 0) = true
           then statOf v (fun sb => sb.fireRate)
           else calculateModifiedStat base.fireRate (modOf v ModKey.increasedFireRate) false)
          base.fireRate := rfl

/-- C1 (amended): a level entry's fire rate is a direct override — the
record's own (truthy) value, flag set — exactly when `levelIndex > 0`, the
record's own fire rate is nonzero and differs from the group's base fire
rate, and the level has no (nonzero) `increasedFireRate` modifier; otherwise
the flag is clear and the resolved value is `baseFireRate × (1 +
increasedFireRate / 100)` when that product is nonzero, and `baseFireRate`
itself when the product is zero.  In particular base 100 with a level-II
`increasedFireRate` of 20 resolves to 120 with the flag clear, and a
level-II own fire rate of 150 with no modifier and base 100 resolves to 150
with the flag set. -/
theorem spec_c1_theorem :
    (∀ (bn : String) (vs : List RawWeapon) (b : RawWeapon) (rest : List RawWeapon)
        (k : ℕ) (v : RawWeapon) (e : LevelEntry),
        sortByLevel vs = b :: rest →
        (b :: rest)[k]? = some v →
        (mkWeaponGroup bn vs).levels[k]? = some e →
        (((0 < k ∧ statOf v (fun sb => sb.fireRate) ≠ 0
              ∧ statOf v (fun sb => sb.fireRate) ≠ (mkWeaponGroup bn vs).baseStats.fireRate
              ∧ modOf v ModKey.increasedFireRate = 0) →
            e.stats.fireRate = statOf v (fun sb => sb.fireRate)
              ∧ e.hasDirectOverrides.fireRate = true)
          ∧ (¬(0 < k ∧ statOf v (fun sb => sb.fireRate) ≠ 0
              ∧ statOf v (fun sb => sb.fireRate) ≠ (mkWeaponGroup bn vs).baseStats.fireRate
              ∧ modOf v ModKey.increasedFireRate = 0) →
            e.stats.fireRate
              = (if (mkWeaponGroup bn vs).baseStats.fireRate
                    * (1 + modOf v ModKey.increasedFireRate / 100) ≠ 0
                 then (mkWeaponGroup bn vs).baseStats.fireRate
                    * (1 + modOf v ModKey.increasedFireRate / 100)
                 else (mkWeaponGroup bn vs).baseStats.fireRate)
              ∧ e.hasDirectOverrides.fireRate = false)))
    ∧ ((((processWeapons [arpI, arpIImod]).headD (junkGroup "")).levels.getD 1 junkLevel).stats.fireRate
          = 120
        ∧ (((processWeapons [arpI, arpIImod]).headD (junkGroup "")).levels.getD 1
            junkLevel).hasDirectOverrides.fireRate = false)
    ∧ ((((processWeapons [arpI, arpIIovr]).headD (junkGroup "")).levels.getD 1 junkLevel).stats.fireRate
          = 150
        ∧ (((processWeapons [arpI, arpIIovr]).headD (junkGroup "")).levels.getD 1
            junkLevel).hasDirectOverrides.fireRate = true) := by
  refine ⟨?_, ⟨?_, by decide⟩, ⟨by decide, by decide⟩⟩
  case refine_2 =>
    show (mkLevel (baseStatsOf arpI) arpI.icon [arpI, arpIImod] 1 arpIImod).stats.fireRate = 120
    have hv : jsOr (if decide ((0:ℕ) < 1 ∧ (0:ℚ) ≠ 0 ∧ (0:ℚ) ≠ 100 ∧ (20:ℚ) = 0) = true
        then (0:ℚ) else calculateModifiedStat 100 20 false) 100 = 120 := by
      norm_num [calculateModifiedStat, jsOr]
    exact hv
  intro bn vs b rest k v e hsort hv he
  obtain ⟨v2, hv2, rfl⟩ := mkWeaponGroup_entry bn vs b rest k e hsort he
  rw [hv] at hv2
  obtain rfl : v = v2 := Option.some.inj hv2
  rw [mkWeaponGroup_baseStats bn vs b rest hsort]
  constructor
  · intro hP
    refine ⟨?_, ?_⟩
    · rw [mkLevel_fireRate, decide_eq_true hP, if_pos rfl]
      unfold jsOr
      rw [if_neg hP.2.1]
    · rw [mkLevel_flag]
      exact decide_eq_true hP
  · intro hP
    refine ⟨?_, ?_⟩
    · rw [mkLevel_fireRate, decide_eq_false hP, if_neg (by simp)]
      exact fireRate_formula _ _
    · rw [mkLevel_flag]
      exact decide_eq_false hP

/-- C1 counterexample: with base fire rate 100 and a level-II
`increasedFireRate` of −100 (no own fire rate), the claim's formula
`baseFireRate × (1 + increasedFireRate / 100)` predicts 0, but the
pipeline's `calculatedFireRate || baseFireRate` fallback resolves to 100. -/
theorem spec_c1_counterexample :
    ((processWeapons [arpI, arpIIneg]).headD (junkGroup "")).baseStats.fireRate = 100
    ∧ (((processWeapons [arpI, arpIIneg]).headD (junkGroup "")).levels.getD 1
        junkLevel).activeModifiers ModKey.increasedFireRate = -100
    ∧ (((processWeapons [arpI, arpIIneg]).headD (junkGroup "")).levels.getD 1
        junkLevel).hasDirectOverrides.fireRate = false
    ∧ (((processWeapons [arpI, arpIIneg]).headD (junkGroup "")).levels.getD 1
        junkLevel).stats.fireRate = 100
    ∧ ((100 : ℚ) ≠ 100 * (1 + (-100) / 100)) := by
  refine ⟨by decide, by decide, by decide, ?_, by norm_num⟩
  show (mkLevel (baseStatsOf arpI) arpI.icon [arpI, arpIIneg] 1 arpIIneg).stats.fireRate = 100
  have hv : jsOr (if decide ((0:ℕ) < 1 ∧ (0:ℚ) ≠ 0 ∧ (0:ℚ) ≠ 100 ∧ (-100:ℚ) = 0) = true
      then (0:ℚ) else calculateModifiedStat 100 (-100) false) 100 = 100 := by
    norm_num [calculateModifiedStat, jsOr]
  exact hv

/-- C1 witness: the direct-override branch at the Arpeggio II example. -/
theorem spec_c1_witness :
    (0 < 1 ∧ statOf arpIIovr (fun sb => sb.fireRate) ≠ 0
      ∧ statOf arpIIovr (fun sb => sb.fireRate)
          ≠ (mkWeaponGroup "Arpeggio" [arpI, arpIIovr]).baseStats.fireRate
      ∧ modOf arpIIovr ModKey.increasedFireRate = 0)
    ∧ ((mkLevel (baseStatsOf arpI) arpI.icon [arpI, arpIIovr] 1 arpIIovr).stats.fireRate
        = statOf arpIIovr (fun sb => sb.fireRate)
      ∧ (mkLevel (baseStatsOf arpI) arpI.icon
          [arpI, arpIIovr] 1 arpIIovr).hasDirectOverrides.fireRate = true) :=
  ⟨by decide,
   (spec_c1_theorem.1 "Arpeggio" [arpI, arpIIovr] arpI [arpIIovr] 1 arpIIovr _
      rfl rfl rfl).1 (by decide)⟩

/-- C3 (amended): a weapon group formed from exactly one raw record has
exactly one level entry, and — provided the record carries no (nonzero)
`increasedFireRate` modifier — the group's base stats equal that level's
resolved stats field for field.  (With a nonzero modifier the level's
`fireRate` and `damagePerSecond` are additionally scaled by it and can
differ from the base stats; see the counterexample.) -/
theorem spec_c3_theorem :
    ∀ (bn : String) (w : RawWeapon),
      (mkWeaponGroup bn [w]).levels.length = 1
      ∧ (modOf w ModKey.increasedFireRate = 0 →
          ∀ e, (mkWeaponGroup bn [w]).levels[0]? = some e →
            ((mkWeaponGroup bn [w]).baseStats.damage = e.stats.damage
             ∧ (mkWeaponGroup bn [w]).baseStats.fireRate = e.stats.fireRate
             ∧ (mkWeaponGroup bn [w]).baseStats.range = e.stats.range
             ∧ (mkWeaponGroup bn [w]).baseStats.stability = e.stats.stability
             ∧ (mkWeaponGroup bn [w]).baseStats.agility = e.stats.agility
             ∧ (mkWeaponGroup bn [w]).baseStats.stealth = e.stats.stealth
             ∧ (mkWeaponGroup bn [w]).baseStats.magazineSize = e.stats.magazineSize
             ∧ (mkWeaponGroup bn [w]).baseStats.weight = e.stats.weight
             ∧ (mkWeaponGroup bn [w]).baseStats.damagePerSecond = e.stats.damagePerSecond)) := by
  intro bn w
  have hsort : sortByLevel [w] = [w] := rfl
  constructor
  · rfl
  · intro hm e he
    obtain ⟨v, hv, rfl⟩ := mkWeaponGroup_entry bn [w] w [] 0 e hsort he
    obtain rfl : w = v := Option.some.inj hv
    rw [mkWeaponGroup_baseStats bn [w] w [] hsort]
    refine ⟨(jsOr_self _).symm, ?_, (jsOr_self _).symm, (jsOr_self _).symm,
      (jsOr_self _).symm, (jsOr_self _).symm, (jsOr_self _).symm, (jsOr_self _).symm, ?_⟩
    · have h1 : (mkLevel (baseStatsOf w) w.icon [w] 0 w).stats.fireRate
          = jsOr (calculateModifiedStat (baseStatsOf w).fireRate
              (modOf w ModKey.increasedFireRate) false) (baseStatsOf w).fireRate := rfl
      rw [h1, hm, calculateModifiedStat_zero, jsOr_self]
    · have h2 : (mkLevel (baseStatsOf w) w.icon [w] 0 w).stats.damagePerSecond
          = jsOr (calculateModifiedStat (baseStatsOf w).damagePerSecond
              (modOf w ModKey.increasedFireRate) false) (baseStatsOf w).damagePerSecond := rfl
      rw [h2, hm, calculateModifiedStat_zero, jsOr_self]

def soloInc : RawWeapon := mkRaw "Solo I" (some (sbOfFR (some 100) (some 20)))

/-- C3 counterexample: a single-record group whose record carries
`fireRate = 100` and `increasedFireRate = 20` has base fire rate 100 but a
level-I resolved fire rate of 120 — the base stats do not equal the only
level's stats as the claim asserts unconditionally. -/
theorem spec_c3_counterexample :
    (processWeapons [soloInc]).length = 1
    ∧ ((processWeapons [soloInc]).headD (junkGroup "")).baseStats.fireRate = 100
    ∧ (((processWeapons [soloInc]).headD (junkGroup "")).levels.getD 0 junkLevel).stats.fireRate
        = 120
    ∧ ((100 : ℚ) ≠ 120) := by
  refine ⟨rfl, by decide, ?_, by norm_num⟩
  show (mkLevel (baseStatsOf soloInc) soloInc.icon [soloInc] 0 soloInc).stats.fireRate = 120
  have hv : jsOr (if decide ((0:ℕ) < 0 ∧ (100:ℚ) ≠ 0 ∧ (100:ℚ) ≠ 100 ∧ (20:ℚ) = 0) = true
      then (100:ℚ) else calculateModifiedStat 100 20 false) 100 = 120 := by
    norm_num [calculateModifiedStat, jsOr]
  exact hv

/-- C3 witness: the single-record Viper group (no modifier at all). -/
theorem spec_c3_witness :
    modOf viperI ModKey.increasedFireRate = 0
    ∧ (mkWeaponGroup "Viper" [viperI]).levels[0]?
        = some (mkLevel (baseStatsOf viperI) viperI.icon [viperI] 0 viperI)
    ∧ ((mkWeaponGroup "Viper" [viperI]).baseStats.damage
        = (mkLevel (baseStatsOf viperI) viperI.icon [viperI] 0 viperI).stats.damage
      ∧ (mkWeaponGroup "Viper" [viperI]).baseStats.fireRate
        = (mkLevel (baseStatsOf viperI) viperI.icon [viperI] 0 viperI).stats.fireRate
      ∧ (mkWeaponGroup "Viper" [viperI]).baseStats.range
        = (mkLevel (baseStatsOf viperI) viperI.icon [viperI] 0 viperI).stats.range
      ∧ (mkWeaponGroup "Viper" [viperI]).baseStats.stability
        = (mkLevel (baseStatsOf viperI) viperI.icon [viperI] 0 viperI).stats.stability
      ∧ (mkWeaponGroup "Viper" [viperI]).baseStats.agility
        = (mkLevel (baseStatsOf viperI) viperI.icon [viperI] 0 viperI).stats.agility
      ∧ (mkWeaponGroup "Viper" [viperI]).baseStats.stealth
        = (mkLevel (baseStatsOf viperI) viperI.icon [viperI] 0 viperI).stats.stealth
      ∧ (mkWeaponGroup "Viper" [viperI]).baseStats.magazineSize
        = (mkLevel (baseStatsOf viperI) viperI.icon [viperI] 0 viperI).stats.magazineSize
      ∧ (mkWeaponGroup "Viper" [viperI]).baseStats.weight
        = (mkLevel (baseStatsOf viperI) viperI.icon [viperI] 0 viperI).stats.weight
      ∧ (mkWeaponGroup "Viper" [viperI]).baseStats.damagePerSecond
        = (mkLevel (baseStatsOf viperI) viperI.icon [viperI] 0 viperI).stats.damagePerSecond) :=
  ⟨rfl, rfl, ( spec_c3_theorem "Viper" viperI).2 rfl _ rfl⟩

/-! ## Lemmas about grouping (C5) -/

/-- Unfolding: pushing onto a matching head entry. -/
theorem addToGroups_cons_eq (k : String) (l : List RawWeapon)
    (rest : List (String × List RawWeapon)) (w : RawWeapon) :
    addToGroups ((k, l) :: rest) k w = (k, l ++ [w]) :: rest := by
  simp [addToGroups]

/-- Unfolding: pushing past a non-matching head entry. -/
theorem addToGroups_cons_ne (k' k : String) (l : List RawWeapon)
    (rest : List (String × List RawWeapon)) (w : RawWeapon) (h : k' ≠ k) :
    addToGroups ((k', l) :: rest) k w = (k', l) :: addToGroups rest k w := by
  simp [addToGroups, h]

/-- A record lands in the updated groups exactly if it was already there or
is the record just pushed. -/
theorem mem_addToGroups (gs : List (String × List RawWeapon)) (k : String)
    (w x : RawWeapon) :
    (∃ p ∈ addToGroups gs k w, x ∈ p.2) ↔ ((∃ p ∈ gs, x ∈ p.2) ∨ x = w) := by
  induction gs with
  | nil => simp [addToGroups]
  | cons q rest ih =>
    obtain ⟨k', l⟩ := q
    by_cases h : k' = k
    · subst h
      rw [addToGroups_cons_eq]
      constructor
      · rintro ⟨p, hp, hx⟩
        rcases List.mem_cons.mp hp with rfl | hp'
        · rcases List.mem_append.mp hx with hx' | hx'
          · exact Or.inl ⟨(k', l), List.mem_cons_self _ _, hx'⟩
          · exact Or.inr (by simpa using hx')
        · exact Or.inl ⟨p, List.mem_cons_of_mem _ hp', hx⟩
      · rintro (⟨p, hp, hx⟩ | rfl)
        · rcases List.mem_cons.mp hp with rfl | hp'
          · exact ⟨(k', l ++ [w]), List.mem_cons_self _ _, List.mem_append.mpr (Or.inl hx)⟩
          · exact ⟨p, List.mem_cons_of_mem _ hp', hx⟩
        · exact ⟨(k', l ++ [x]), List.mem_cons_self _ _, List.mem_append.mpr (Or.inr (by simp))⟩
    · rw [addToGroups_cons_ne _ _ _ _ _ h]
      constructor
      · rintro ⟨p, hp, hx⟩
        rcases List.mem_cons.mp hp with rfl | hp'
        · exact Or.inl ⟨(k', l), List.mem_cons_self _ _, hx⟩
        · rcases ih.mp ⟨p, hp', hx⟩ with ⟨p', hp'', hx''⟩ | he
          · exact Or.inl ⟨p', List.mem_cons_of_mem _ hp'', hx''⟩
          · exact Or.inr he
      · rintro (⟨p, hp, hx⟩ | he)
        · rcases List.mem_cons.mp hp with rfl | hp'
          · exact ⟨(k', l), List.mem_cons_self _ _, hx⟩
          · obtain ⟨p', hp'', hx''⟩ := ih.mpr (Or.inl ⟨p, hp', hx⟩)
            exact ⟨p', List.mem_cons_of_mem _ hp'', hx''⟩
        · obtain ⟨p', hp'', hx''⟩ := ih.mpr (Or.inr he)
          exact ⟨p', List.mem_cons_of_mem _ hp'', hx''⟩

/-- Pushing a record extends the key sequence by its key only if the key is
new. -/
theorem keys_addToGroups (gs : List (String × List RawWeapon)) (k : String)
    (w : RawWeapon) :
    (addToGroups gs k w).map Prod.fst
      = if k ∈ gs.map Prod.fst then gs.map Prod.fst else gs.map Prod.fst ++ [k] := by
  induction gs with
  | nil => simp [addToGroups]
  | cons q rest ih =>
    obtain ⟨k', l⟩ := q
    by_cases h : k' = k
    · subst h
      rw [addToGroups_cons_eq]
      simp
    · rw [addToGroups_cons_ne _ _ _ _ _ h, List.map_cons, List.map_cons, ih]
      by_cases h2 : k ∈ rest.map Prod.fst
      · simp [h2, Ne.symm h]
      · simp [h2, Ne.symm h]

/-- Pushing preserves the all-members-carry-their-key invariant. -/
theorem key_addToGroups (gs : List (String × List RawWeapon)) (k : String)
    (w : RawWeapon) (hw : baseNameOf w.name = k)
    (h : ∀ p ∈ gs, ∀ x ∈ p.2, baseNameOf x.name = p.1) :
    ∀ p ∈ addToGroups gs k w, ∀ x ∈ p.2, baseNameOf x.name = p.1 := by
  induction gs with
  | nil =>
    intro p hp x hx
    have hp' : p = (k, [w]) := by simpa [addToGroups] using hp
    subst hp'
    have hx' : x = w := by simpa using hx
    subst hx'
    exact hw
  | cons q rest ih =>
    obtain ⟨k', l⟩ := q
    intro p hp x hx
    by_cases hk : k' = k
    · subst hk
      rw [addToGroups_cons_eq] at hp
      rcases List.mem_cons.mp hp with rfl | hp'
      · rcases List.mem_append.mp hx with hx' | hx'
        · exact h (k', l) (List.mem_cons_self _ _) x hx'
        · have hx'' : x = w := by simpa using hx'
          subst hx''
          exact hw
      · exact h p (List.mem_cons_of_mem _ hp') x hx
    · rw [addToGroups_cons_ne _ _ _ _ _ hk] at hp
      rcases List.mem_cons.mp hp with rfl | hp'
      · exact h (k', l) (List.mem_cons_self _ _) x hx
      · exact ih (fun p' hp'' => h p' (List.mem_cons_of_mem _ hp'')) p hp' x hx

/-- Pushing preserves nonemptiness of every entry. -/
theorem nonempty_addToGroups (gs : List (String × List RawWeapon)) (k : String)
    (w : RawWeapon) (h : ∀ p ∈ gs, p.2 ≠ []) :
    ∀ p ∈ addToGroups gs k w, p.2 ≠ [] := by
  induction gs with
  | nil =>
    intro p hp
    have hp' : p = (k, [w]) := by simpa [addToGroups] using hp
    subst hp'
    simp
  | cons q rest ih =>
    obtain ⟨k', l⟩ := q
    intro p hp
    by_cases hk : k' = k
    · subst hk
      rw [addToGroups_cons_eq] at hp
      rcases List.mem_cons.mp hp with rfl | hp'
      · simp
      · exact h p (List.mem_cons_of_mem _ hp')
    · rw [addToGroups_cons_ne _ _ _ _ _ hk] at hp
      rcases List.mem_cons.mp hp with rfl | hp'
      · exact h (k', l) (List.mem_cons_self _ _)
      · exact ih (fun p' hp'' => h p' (List.mem_cons_of_mem _ hp'')) p hp'

/-- With distinct keys, an association key determines its entry. -/
theorem assoc_unique {gs : List (String × List RawWeapon)}
    (h : (gs.map Prod.fst).Nodup) {k : String} {l1 l2 : List RawWeapon}
    (h1 : (k, l1) ∈ gs) (h2 : (k, l2) ∈ gs) : l1 = l2 := by
  induction gs with
  | nil => simp at h1
  | cons q rest ih =>
    rw [List.map_cons, List.nodup_cons] at h
    rcases List.mem_cons.mp h1 with he1 | h1'
    · rcases List.mem_cons.mp h2 with he2 | h2'
      · exact congrArg Prod.snd (he1.trans he2.symm)
      · exfalso
        apply h.1
        rw [← he1]
        exact List.mem_map.mpr ⟨(k, l2), h2', rfl⟩
    · rcases List.mem_cons.mp h2 with he2 | h2'
      · exfalso
        apply h.1
        rw [← he2]
        exact List.mem_map.mpr ⟨(k, l1), h1', rfl⟩
      · exact ih h.2 h1' h2'

/-- The grouping fold: it maintains the key, distinct-keys and nonempty
invariants, and accounts for exactly the processed records. -/
theorem groupFold (ws : List RawWeapon) :
    ∀ gs : List (String × List RawWeapon),
      (∀ p ∈ gs, ∀ x ∈ p.2, baseNameOf x.name = p.1) →
      (gs.map Prod.fst).Nodup →
      (∀ p ∈ gs, p.2 ≠ []) →
      ((∀ p ∈ ws.foldl (fun gs w => addToGroups gs (baseNameOf w.name) w) gs,
          ∀ x ∈ p.2, baseNameOf x.name = p.1)
        ∧ ((ws.foldl (fun gs w => addToGroups gs (baseNameOf w.name) w) gs).map Prod.fst).Nodup
        ∧ (∀ p ∈ ws.foldl (fun gs w => addToGroups gs (baseNameOf w.name) w) gs, p.2 ≠ [])
        ∧ (∀ x, (∃ p ∈ ws.foldl (fun gs w => addToGroups gs (baseNameOf w.name) w) gs, x ∈ p.2)
            ↔ ((∃ p ∈ gs, x ∈ p.2) ∨ x ∈ ws))) := by
  induction ws with
  | nil =>
    intro gs h1 h2 h3
    exact ⟨h1, h2, h3, by simp⟩
  | cons w ws' ih =>
    intro gs h1 h2 h3
    rw [List.foldl_cons]
    have h2' : ((addToGroups gs (baseNameOf w.name) w).map Prod.fst).Nodup := by
      rw [keys_addToGroups]
      split
      · exact h2
      · rename_i hmem
        rw [List.nodup_append]
        refine ⟨h2, by simp, ?_⟩
        intro a ha hb
        have hb' : a = baseNameOf w.name := by simpa using hb
        subst hb'
        exact hmem ha
    obtain ⟨g1, g2, g3, g4⟩ := ih (addToGroups gs (baseNameOf w.name) w)
      (key_addToGroups gs (baseNameOf w.name) w rfl h1) h2'
      (nonempty_addToGroups gs (baseNameOf w.name) w h3)
    refine ⟨g1, g2, g3, ?_⟩
    intro x
    rw [g4 x, mem_addToGroups]
    constructor
    · rintro ((h | h) | h)
      · exact Or.inl h
      · exact Or.inr (by simp [h])
      · exact Or.inr (List.mem_cons_of_mem _ h)
    · rintro (h | h)
      · exact Or.inl (Or.inl h)
      · rcases List.mem_cons.mp h with rfl | h'
        · exact Or.inl (Or.inr rfl)
        · exact Or.inr h'

/-! ## Lemmas about the level sort (C5) -/

/-- Membership through stable insertion. -/
theorem mem_insertByKey (x z : RawWeapon) (l : List RawWeapon) :
    z ∈ insertByKey x l ↔ z = x ∨ z ∈ l := by
  induction l with
  | nil => simp [insertByKey]
  | cons y ys ih =>
    unfold insertByKey
    split
    · simp [List.mem_cons]
    · rw [List.mem_cons, ih, List.mem_cons]
      tauto

/-- Stable insertion preserves sortedness by the comparator key. -/
theorem pairwise_insertByKey (x : RawWeapon) (l : List RawWeapon)
    (h : l.Pairwise (fun a b => sortKeyOf a.name ≤ sortKeyOf b.name)) :
    (insertByKey x l).Pairwise (fun a b => sortKeyOf a.name ≤ sortKeyOf b.name) := by
  induction l with
  | nil => simp [insertByKey]
  | cons y ys ih =>
    rw [List.pairwise_cons] at h
    unfold insertByKey
    split
    · rename_i hxy
      rw [List.pairwise_cons]
      refine ⟨?_, List.pairwise_cons.mpr h⟩
      intro z hz
      rcases List.mem_cons.mp hz with rfl | hz'
      · exact hxy
      · exact le_trans hxy (h.1 z hz')
    · rename_i hxy
      push_neg at hxy
      rw [List.pairwise_cons]
      constructor
      · intro z hz
        rcases (mem_insertByKey x z ys).mp hz with rfl | hz'
        · exact le_of_lt hxy
        · exact h.1 z hz'
      · exact ih h.2

/-- The level sort is sorted by the comparator key. -/
theorem pairwise_sortByLevel (l : List RawWeapon) :
    (sortByLevel l).Pairwise (fun a b => sortKeyOf a.name ≤ sortKeyOf b.name) := by
  induction l with
  | nil => simp [sortByLevel]
  | cons x xs ih => exact pairwise_insertByKey x (sortByLevel xs) ih

/-- The level sort is a permutation in the membership sense. -/
theorem mem_sortByLevel (a : RawWeapon) (l : List RawWeapon) :
    a ∈ sortByLevel l ↔ a ∈ l := by
  induction l with
  | nil => simp [sortByLevel]
  | cons x xs ih =>
    show a ∈ insertByKey x (sortByLevel xs) ↔ _
    rw [mem_insertByKey, ih, List.mem_cons]

/-- Sortedness transfers from a list to its enumeration. -/
theorem pairwise_enum_of_pairwise {R : RawWeapon → RawWeapon → Prop}
    (l : List RawWeapon) (h : l.Pairwise R) :
    (l.enum).Pairwise (fun q1 q2 => R q1.2 q2.2) := by
  rw [← List.enum_map_snd l] at h
  exact List.pairwise_map.mp h

/-! ## Claim theorems: the normalizer (C5, C9) -/

/-- C5: `processWeapons` partitions weapon records by the stripped base
name: two records land in the same group entry exactly when their stripped
names agree (first conjunct); within every produced group the level entries
are ordered ascending by the rank of their parsed roman-numeral level label
(rank `I`=1 … `V`=5, rank 1 when the suffix is absent or not a key of the
rank table) (second conjunct); and the records "Viper I", "Viper II",
"Viper III" produce exactly one group, named "Viper", with exactly the three
levels I, II, III in order (third conjunct). -/
theorem spec_c5_theorem :
    (∀ (ws : List RawWeapon) (w1 w2 : RawWeapon),
        (∃ p ∈ groupByBaseName ws, w1 ∈ p.2 ∧ w2 ∈ p.2)
          ↔ (w1 ∈ ws ∧ w2 ∈ ws ∧ baseNameOf w1.name = baseNameOf w2.name))
    ∧ (∀ (ws : List RawWeapon) (g : WeaponGroup), g ∈ processWeapons ws →
        g.levels.Pairwise (fun e1 e2 => rankOfLevel e1.level ≤ rankOfLevel e2.level))
    ∧ ((processWeapons [viperI, viperII, viperIII]).length = 1
        ∧ ((processWeapons [viperI, viperII, viperIII]).headD (junkGroup "")).baseName = "Viper"
        ∧ ((processWeapons [viperI, viperII, viperIII]).headD (junkGroup "")).levels.map
            (fun e => e.level) = ["I", "II", "III"]) := by
  refine ⟨?_, ?_, ⟨by decide, by decide, by decide⟩⟩
  · intro ws w1 w2
    obtain ⟨g1, g2, -, g4⟩ := groupFold ws [] (by simp) (by simp) (by simp)
    constructor
    · rintro ⟨p, hp, h1, h2⟩
      refine ⟨?_, ?_, ?_⟩
      · have := (g4 w1).mp ⟨p, hp, h1⟩
        simpa using this
      · have := (g4 w2).mp ⟨p, hp, h2⟩
        simpa using this
      · rw [g1 p hp w1 h1, g1 p hp w2 h2]
    · rintro ⟨h1, h2, heq⟩
      obtain ⟨p1, hp1, hm1⟩ := (g4 w1).mpr (by simp [h1])
      obtain ⟨p2, hp2, hm2⟩ := (g4 w2).mpr (by simp [h2])
      obtain ⟨k1, l1⟩ := p1
      obtain ⟨k2, l2⟩ := p2
      have hk1 : baseNameOf w1.name = k1 := g1 (k1, l1) hp1 w1 hm1
      have hk2 : baseNameOf w2.name = k2 := g1 (k2, l2) hp2 w2 hm2
      have hkk : k1 = k2 := by rw [← hk1, ← hk2, heq]
      subst hkk
      have hl : l1 = l2 := assoc_unique g2 hp1 hp2
      subst hl
      exact ⟨(k1, l1), hp1, hm1, hm2⟩
  · intro ws g hg
    obtain ⟨p, hp, rfl⟩ := processWeapons_mem ws g hg
    unfold mkWeaponGroup
    cases hsort : sortByLevel p.2 with
    | nil => simp [junkGroup]
    | cons b rest =>
      show (buildGroup p.1 b (b :: rest)).levels.Pairwise _
      unfold buildGroup
      rw [List.pairwise_map]
      have hs : (b :: rest).Pairwise (fun a c => sortKeyOf a.name ≤ sortKeyOf c.name) := by
        rw [← hsort]
        exact pairwise_sortByLevel p.2
      exact (pairwise_enum_of_pairwise (b :: rest) hs).imp (fun hab => hab)

/-- C5 witness: the grouping characterization applied to the Viper pair. -/
theorem spec_c5_witness :
    (viperI ∈ [viperI, viperII] ∧ viperII ∈ [viperI, viperII]
      ∧ baseNameOf viperI.name = baseNameOf viperII.name)
    ∧ (∃ p ∈ groupByBaseName [viperI, viperII], viperI ∈ p.2 ∧ viperII ∈ p.2) :=
  ⟨⟨by decide, by decide, by decide⟩,
   (spec_c5_theorem.1 [viperI, viperII] viperI viperII).mpr
     ⟨by decide, by decide, by decide⟩⟩

def torrenteRec : RawWeapon :=
  { mkRaw "Torrente MkII" none with subcategory := some "Assault Rifle" }

/-- C9: the group subcategory is computed from the representative record by
trimming the declared subcategory, renaming "Hand Cannon" → "Pistol" and
"Battle Rifle" → "Rifle", and then letting the first matching name-substring
rule (Ferro/Renegade → Rifle, Torrente → LMG, Osprey → Sniper Rifle,
Stitcher → SMG, Il Toro → Shotgun) override the declared/renamed value; in
particular a record declared "Assault Rifle" whose name contains "Torrente"
resolves to "LMG". -/
theorem spec_c9_theorem :
    (∀ w : RawWeapon, normalizeSubcategory w = claimSubcategory w)
    ∧ torrenteRec.subcategory = some "Assault Rifle"
    ∧ strContains torrenteRec.name "Torrente" = true
    ∧ normalizeSubcategory torrenteRec = "LMG" := by
  refine ⟨?_, rfl, by decide, by decide⟩
  intro w
  have hdecl :
      (if w.subcategory.getD "" ≠ "" then
        (if jsTrim (w.subcategory.getD "") = "Hand Cannon" then "Pistol"
         else if jsTrim (w.subcategory.getD "") = "Battle Rifle" then "Rifle"
         else jsTrim (w.subcategory.getD ""))
       else w.subcategory.getD "")
      = applyRenames (jsTrim (w.subcategory.getD "")) := by
    by_cases hs : w.subcategory.getD "" = ""
    · rw [if_neg (by simp [hs]), hs]
      rfl
    · rw [if_pos hs]
      rfl
  unfold normalizeSubcategory claimSubcategory nameRule
  by_cases hn : w.name = ""
  · rw [if_neg (by simp [hn]), hn]
    rw [show strContains "" "Ferro" = false from rfl,
      show strContains "" "Renegade" = false from rfl,
      show strContains "" "Torrente" = false from rfl,
      show strContains "" "Osprey" = false from rfl,
      show strContains "" "Stitcher" = false from rfl,
      show strContains "" "Il Toro" = false from rfl]
    simpa using hdecl
  · rw [if_pos hn]
    by_cases c1 : (strContains w.name "Ferro" || strContains w.name "Renegade") = true
    · rw [if_pos c1, if_pos c1]
    · rw [if_neg c1, if_neg c1]
      by_cases c2 : strContains w.name "Torrente" = true
      · rw [if_pos c2, if_pos c2]
      · rw [if_neg c2, if_neg c2]
        by_cases c3 : strContains w.name "Osprey" = true
        · rw [if_pos c3, if_pos c3]
        · rw [if_neg c3, if_neg c3]
          by_cases c4 : strContains w.name "Stitcher" = true
          · rw [if_pos c4, if_pos c4]
          · rw [if_neg c4, if_neg c4]
            by_cases c5 : strContains w.name "Il Toro" = true
            · rw [if_pos c5, if_pos c5]
            · rw [if_neg c5, if_neg c5]
              simpa using hdecl
